import Mathlib

/-!
Shallow embedding of `src/app.py` (YouTube analyse/download front end).

The pure helpers `_estimate_size_bytes`, `_human_mb`, the format filter in
`YouTubeTab._populate_formats`, the auto-pick scan `YouTubeTab._auto_pick_row`,
the progress clamp `YTDLPDownloadWorker._emit_progress`, the control flow of
`YTDLPDownloadWorker.run`, and the session-level handlers of `YouTubeTab`
are translated into executable Lean definitions.  Python numbers appearing in
format metadata are modelled as rationals (`yt-dlp` may report either ints or
floats); Python `int(...)` truncation toward zero is `qtrunc`; Python
truthiness of an optional number (`if not x`) is "absent or zero".
-/

namespace App

/-- One format descriptor as consumed by `app.py` (a `dict` in the source);
only the keys the program reads are modelled.  A missing `format_id` is
modelled as `""` because the source reads it via `str(fmt.get("format_id", ""))`
and treats the empty string as invalid. -/
structure Fmt where
  format_id : String := ""
  ext : String := ""
  vcodec : Option String := none
  acodec : Option String := none
  width : Option Nat := none
  height : Option Nat := none
  filesize : Option ℚ := none
  filesize_approx : Option ℚ := none
  tbr : Option ℚ := none
  vbr : Option ℚ := none
  abr : Option ℚ := none

deriving instance DecidableEq for Fmt

/-- Python `str.startswith(pre)`: prefix test on the character data. -/
def strStartsWith (s pre : String) : Bool := pre.data.isPrefixOf s.data

/-- Python whitespace as stripped by `str.strip()`. -/
def pyIsSpace (c : Char) : Bool :=
  c == ' ' || c == '\t' || c == '\n' || c == '\x0d' || c == '\x0b' || c == '\x0c'

/-- Python `str.strip()`: drop leading and trailing whitespace. -/
def pyStrip (s : String) : String :=
  ⟨((s.data.dropWhile pyIsSpace).reverse.dropWhile pyIsSpace).reverse⟩

/-- Python `int(q)` on a rational: truncation toward zero (`Int.tdiv` is
T-division, and `q` is stored in lowest terms). -/
def qtrunc (q : ℚ) : ℤ := q.num.tdiv (q.den : ℤ)

/-- `vbr and abr` branch of `_estimate_size_bytes`: the sum of video and audio
bitrate when both are present and truthy (nonzero). -/
def estVbrAbr (fmt : Fmt) : Option ℚ :=
  match fmt.vbr, fmt.abr with
  | some v, some a => if v ≠ 0 ∧ a ≠ 0 then some (v + a) else none
  | _, _ => none

/-- The effective bitrate used by `_estimate_size_bytes`: `tbr` when truthy,
else `vbr + abr` when both truthy; `none` models a final falsy `tbr`. -/
def estBitrate (fmt : Fmt) : Option ℚ :=
  match fmt.tbr with
  | some t => if t ≠ 0 then some t else estVbrAbr fmt
  | none => estVbrAbr fmt

/-- Bitrate/duration stage (the tail) of `_estimate_size_bytes`. -/
def estFromBitrate (fmt : Fmt) (duration : Option ℚ) : Option ℤ × Bool :=
  match duration, estBitrate fmt with
  | some d, some t =>
      if d ≠ 0 ∧ t ≠ 0 then (some (qtrunc (t * 1000 / 8 * d)), true) else (none, true)
  | _, _ => (none, true)

/-- Approximate-filesize stage of `_estimate_size_bytes`. -/
def estFromApprox (fmt : Fmt) (duration : Option ℚ) : Option ℤ × Bool :=
  match fmt.filesize_approx with
  | some fa => if 0 < fa then (some (qtrunc fa), true) else estFromBitrate fmt duration
  | none => estFromBitrate fmt duration

/-- `_estimate_size_bytes(fmt, duration)` from `app.py`: exact `filesize` if
positive, else positive `filesize_approx`, else a bitrate x duration estimate,
else `(None, True)`. -/
def estimate_size_bytes (fmt : Fmt) (duration : Option ℚ) : Option ℤ × Bool :=
  match fmt.filesize with
  | some fs => if 0 < fs then (some (qtrunc fs), false) else estFromApprox fmt duration
  | none => estFromApprox fmt duration

/-- Rounding of `10 * n / 1048576` to the nearest integer, ties to even: the
value Python prints for `f"{n / (1024 * 1024):.1f}"` (exact for every byte
count below 2^53, where the quotient is an exact double). -/
def one_decimal (n : ℕ) : ℕ :=
  let num := 10 * n
  let q := num / 1048576
  let r := num % 1048576
  if 2 * r < 1048576 then q
  else if 1048576 < 2 * r then q + 1
  else if q % 2 = 0 then q else q + 1

/-- `_human_mb(nbytes, approx)` from `app.py`. -/
def human_mb (nbytes : Option ℤ) (approx : Bool) : String :=
  match nbytes with
  | none => "?"
  | some n =>
      if n ≤ 0 then "?"
      else
        let t := one_decimal n.toNat
        let text := toString (t / 10) ++ "." ++ toString (t % 10) ++ " Mo"
        if approx then "~" ++ text else text

/-- `fmt.get("vcodec") not in (None, "none")` (same for `acodec`). -/
def codecOk : Option String → Bool
  | none => false
  | some c => !(c == "none")

/-- The keep-condition of the list comprehension in
`YouTubeTab._populate_formats` (lines 305-313 of `app.py`). -/
def keep_combined (f : Fmt) : Bool :=
  f.ext == "mp4" && !(strStartsWith f.format_id "sb") && !(f.ext == "mhtml")
    && codecOk f.vcodec && codecOk f.acodec

/-- The combined-format filter of `YouTubeTab._populate_formats`. -/
def filter_combined (l : List Fmt) : List Fmt := l.filter keep_combined

/-- The height stored in the resolution cell's user role:
`int(height) if height else 0`. -/
def heightValue (f : Fmt) : ℕ :=
  match f.height with
  | some h => h
  | none => 0

/-- The loop body of `YouTubeTab._auto_pick_row`, over the per-row heights:
`idx` is the index of the current row, `bestRow`/`bestHeight` the running
best. -/
def auto_pick_aux : List ℕ → ℕ → Option ℕ → ℕ → Option ℕ
  | [], _, bestRow, _ => bestRow
  | h :: rest, idx, bestRow, bestHeight =>
      if h = 720 then some idx
      else if bestHeight < h then auto_pick_aux rest (idx + 1) (some idx) h
      else auto_pick_aux rest (idx + 1) bestRow bestHeight

/-- `YouTubeTab._auto_pick_row` over the list of row heights. -/
def auto_pick_heights (hs : List ℕ) : Option ℕ := auto_pick_aux hs 0 none 0

/-- `YouTubeTab._auto_pick_row` over the filtered format rows (the table rows
carry `heightValue` in their user-role data, in `formats_data` order, since
sorting is disabled while the table is rebuilt and auto-pick runs). -/
def auto_pick_row (fmts : List Fmt) : Option ℕ :=
  auto_pick_heights (fmts.map heightValue)

/-- `YTDLPDownloadWorker._emit_progress`: `max(0, min(100, value))`. -/
def emit_progress_value (v : ℤ) : ℤ := max 0 (min 100 v)

/-- The greatest height in a list of row heights (0 for the empty list). -/
def maxH (hs : List ℕ) : ℕ := hs.foldr max 0

/-- A single format row whose height user-role value is `0`. -/
def zeroHeightFmt : Fmt := { height := some 0 }

theorem maxH_cons (h : ℕ) (t : List ℕ) : maxH (h :: t) = max h (maxH t) := rfl

theorem auto_pick_aux_of_mem :
    ∀ (hs : List ℕ) (idx : ℕ) (bR : Option ℕ) (bH : ℕ), 720 ∈ hs →
      auto_pick_aux hs idx bR bH = some (idx + hs.findIdx (fun h => h == 720)) := by
  intro hs
  induction hs with
  | nil => intro idx bR bH hmem; cases hmem
  | cons h t ih =>
      intro idx bR bH hmem
      by_cases h720 : h = 720
      · subst h720
        simp [auto_pick_aux, List.findIdx_cons]
      · have hmem' : 720 ∈ t := by
          rcases List.mem_cons.mp hmem with hc | hc
          · exact absurd hc.symm h720
          · exact hc
        have hbeq : (h == 720) = false := by simp [h720]
        simp only [auto_pick_aux, List.findIdx_cons, hbeq, cond_false, if_neg h720]
        by_cases hlt : bH < h
        · rw [if_pos hlt, ih (idx + 1) (some idx) h hmem']
          simp only [Option.some.injEq]
          omega
        · rw [if_neg hlt, ih (idx + 1) bR bH hmem']
          simp only [Option.some.injEq]
          omega

theorem auto_pick_aux_of_not_mem :
    ∀ (hs : List ℕ) (idx : ℕ) (bR : Option ℕ) (bH : ℕ), 720 ∉ hs →
      auto_pick_aux hs idx bR bH =
        if bH < maxH hs then some (idx + hs.findIdx (fun h => h == maxH hs)) else bR := by
  intro hs
  induction hs with
  | nil =>
      intro idx bR bH _
      simp [auto_pick_aux, maxH]
  | cons h t ih =>
      intro idx bR bH hmem
      have h720 : h ≠ 720 := fun hc => hmem (hc ▸ List.mem_cons_self h t)
      have hmem' : 720 ∉ t := fun hc => hmem (List.mem_cons_of_mem h hc)
      rw [maxH_cons]
      by_cases hlt : bH < h
      · have hcond : bH < max h (maxH t) := lt_max_iff.mpr (Or.inl hlt)
        rw [if_pos hcond]
        simp only [auto_pick_aux, if_neg h720, if_pos hlt]
        rw [ih (idx + 1) (some idx) h hmem']
        by_cases hM : h < maxH t
        · have hmax : max h (maxH t) = maxH t := max_eq_right (le_of_lt hM)
          have hbeq : (h == maxH t) = false := by simp [Nat.ne_of_lt hM]
          rw [if_pos hM, hmax, List.findIdx_cons, hbeq, cond_false]
          simp only [Option.some.injEq]
          omega
        · have hmax : max h (maxH t) = h := max_eq_left (Nat.le_of_not_lt hM)
          rw [if_neg hM, hmax, List.findIdx_cons]
          simp
      · have hcond : (bH < max h (maxH t)) ↔ (bH < maxH t) := by
          constructor
          · intro hc
            rcases lt_max_iff.mp hc with hc' | hc'
            · exact absurd hc' hlt
            · exact hc'
          · intro hc
            exact lt_max_iff.mpr (Or.inr hc)
        simp only [auto_pick_aux, if_neg h720, if_neg hlt]
        rw [ih (idx + 1) bR bH hmem']
        by_cases hM : bH < maxH t
        · have hhM : h < maxH t := lt_of_le_of_lt (Nat.le_of_not_lt hlt) hM
          have hmax : max h (maxH t) = maxH t := max_eq_right (le_of_lt hhM)
          have hbeq : (h == maxH t) = false := by simp [Nat.ne_of_lt hhM]
          rw [if_pos hM, if_pos (hcond.mpr hM), hmax, List.findIdx_cons, hbeq, cond_false]
          simp only [Option.some.injEq]
          omega
        · rw [if_neg hM, if_neg (fun hc => hM (hcond.mp hc))]

/-- C1 (amended): `_auto_pick_row` returns the index of the first row whose
stored height equals 720 (returning immediately, regardless of larger heights
later); otherwise, when some row has a strictly positive height, the index of
the first row attaining the greatest height; and nothing when the list is
empty or every row's height is zero/missing. -/
theorem auto_pick_row_spec (fmts : List Fmt) :
    auto_pick_row fmts =
      if 720 ∈ fmts.map heightValue then
        some ((fmts.map heightValue).findIdx (fun h => h == 720))
      else if 0 < maxH (fmts.map heightValue) then
        some ((fmts.map heightValue).findIdx (fun h => h == maxH (fmts.map heightValue)))
      else none := by
  unfold auto_pick_row auto_pick_heights
  by_cases hmem : 720 ∈ fmts.map heightValue
  · rw [if_pos hmem, auto_pick_aux_of_mem (fmts.map heightValue) 0 none 0 hmem]
    simp
  · rw [if_neg hmem, auto_pick_aux_of_not_mem (fmts.map heightValue) 0 none 0 hmem]
    by_cases hM : 0 < maxH (fmts.map heightValue)
    · rw [if_pos hM, if_pos hM]
      simp
    · rw [if_neg hM, if_neg hM]

/-- C1 counterexample: a nonempty row list with no 720 entry on which
`_auto_pick_row` selects nothing, although the claim requires the index of the
first row attaining the greatest height (index 0 here, greatest height 0). -/
theorem auto_pick_row_all_zero_cex :
    ([zeroHeightFmt] : List Fmt) ≠ [] ∧ auto_pick_row [zeroHeightFmt] = none := by
  constructor
  · simp
  · rfl

/-- C3: the combined-format filter keeps exactly the mp4, non-storyboard
entries with both codecs present and not "none"; it preserves relative order
(its output is a sublist of its input) and is idempotent. -/
theorem filter_combined_spec (l : List Fmt) :
    (∀ f ∈ filter_combined l,
        f.ext = "mp4" ∧ strStartsWith f.format_id "sb" = false ∧
        (∃ c, f.vcodec = some c ∧ c ≠ "none") ∧ (∃ c, f.acodec = some c ∧ c ≠ "none")) ∧
    (∀ f ∈ l,
        f.ext = "mp4" → strStartsWith f.format_id "sb" = false →
        (∃ c, f.vcodec = some c ∧ c ≠ "none") → (∃ c, f.acodec = some c ∧ c ≠ "none") →
        f ∈ filter_combined l) ∧
    (filter_combined l).Sublist l ∧
    filter_combined (filter_combined l) = filter_combined l := by
  refine ⟨?_, ?_, ?_, ?_⟩
  · intro f hf
    have hkeep : keep_combined f = true := (List.mem_filter.mp hf).2
    simp only [keep_combined, Bool.and_eq_true, beq_iff_eq, Bool.not_eq_true'] at hkeep
    obtain ⟨⟨⟨⟨hext, hsb⟩, _⟩, hv⟩, ha⟩ := hkeep
    refine ⟨hext, hsb, ?_, ?_⟩
    · cases hvc : f.vcodec with
      | none => rw [hvc] at hv; exact absurd hv (by simp [codecOk])
      | some c =>
          rw [hvc] at hv
          simp only [codecOk, Bool.not_eq_true', beq_eq_false_iff_ne, ne_eq] at hv
          exact ⟨c, rfl, hv⟩
    · cases hac : f.acodec with
      | none => rw [hac] at ha; exact absurd ha (by simp [codecOk])
      | some c =>
          rw [hac] at ha
          simp only [codecOk, Bool.not_eq_true', beq_eq_false_iff_ne, ne_eq] at ha
          exact ⟨c, rfl, ha⟩
  · intro f hf hext hsb hv ha
    refine List.mem_filter.mpr ⟨hf, ?_⟩
    obtain ⟨cv, hcv, hcv'⟩ := hv
    obtain ⟨ca, hca, hca'⟩ := ha
    simp [keep_combined, hext, hsb, hcv, hca, codecOk, hcv', hca']
  · exact List.filter_sublist l
  · simp [filter_combined, List.filter_filter]

/-- C10: the clamped progress emission of `YTDLPDownloadWorker._emit_progress`
always lies in [0, 100]; values below 0 are raised to 0, values above 100 are
lowered to 100, and values already in range pass through unchanged. -/
theorem emit_progress_value_spec (v : ℤ) :
    0 ≤ emit_progress_value v ∧ emit_progress_value v ≤ 100 ∧
    (v < 0 → emit_progress_value v = 0) ∧ (100 < v → emit_progress_value v = 100) ∧
    (0 ≤ v → v ≤ 100 → emit_progress_value v = v) := by
  unfold emit_progress_value
  omega

/-- `True` when an optional size field holds a positive value (the condition
`isinstance(x, (int, float)) and x > 0` of `_estimate_size_bytes`). -/
def hasPosQ : Option ℚ → Bool
  | none => false
  | some q => decide (0 < q)

theorem estimate_eq_approx (fmt : Fmt) (dur : Option ℚ) (h : hasPosQ fmt.filesize = false) :
    estimate_size_bytes fmt dur = estFromApprox fmt dur := by
  unfold estimate_size_bytes
  cases hfs : fmt.filesize with
  | none => rfl
  | some fs =>
      rw [hfs] at h
      simp only [hasPosQ, decide_eq_false_iff_not] at h
      simp [h]

theorem approx_eq_bitrate (fmt : Fmt) (dur : Option ℚ) (h : hasPosQ fmt.filesize_approx = false) :
    estFromApprox fmt dur = estFromBitrate fmt dur := by
  unfold estFromApprox
  cases hfa : fmt.filesize_approx with
  | none => rfl
  | some fa =>
      rw [hfa] at h
      simp only [hasPosQ, decide_eq_false_iff_not] at h
      simp [h]

/-- C2: `_estimate_size_bytes` follows the claimed precedence — positive exact
`filesize` first (exact), then positive `filesize_approx` (approximate), then
a bitrate-times-duration estimate when both an effective bitrate (`tbr`, else
`vbr + abr` when both are truthy) and a duration are available and truthy,
else `(none, approximate)`; including the two concrete examples of the spec. -/
theorem estimate_size_bytes_spec (fmt : Fmt) (dur : Option ℚ) :
    (∀ fs, fmt.filesize = some fs → 0 < fs →
        estimate_size_bytes fmt dur = (some (qtrunc fs), false)) ∧
    (hasPosQ fmt.filesize = false →
        ∀ fa, fmt.filesize_approx = some fa → 0 < fa →
          estimate_size_bytes fmt dur = (some (qtrunc fa), true)) ∧
    (hasPosQ fmt.filesize = false → hasPosQ fmt.filesize_approx = false →
        ∀ d t, dur = some d → estBitrate fmt = some t → d ≠ 0 → t ≠ 0 →
          estimate_size_bytes fmt dur = (some (qtrunc (t * 1000 / 8 * d)), true)) ∧
    (hasPosQ fmt.filesize = false → hasPosQ fmt.filesize_approx = false →
        (dur = none ∨ dur = some 0 ∨ estBitrate fmt = none ∨ estBitrate fmt = some 0) →
          estimate_size_bytes fmt dur = (none, true)) ∧
    (∀ g : Fmt, g.filesize = some 5000000 →
        estimate_size_bytes g dur = (some 5000000, false)) ∧
    estimate_size_bytes { tbr := some 1000 } (some 60) = (some 7500000, true) := by
  refine ⟨?_, ?_, ?_, ?_, ?_, ?_⟩
  · intro fs hfs h0
    unfold estimate_size_bytes
    rw [hfs]
    simp [h0]
  · intro h fa hfa h0
    rw [estimate_eq_approx fmt dur h]
    unfold estFromApprox
    rw [hfa]
    simp [h0]
  · intro h1 h2 d t hd ht hd0 ht0
    rw [estimate_eq_approx fmt dur h1, approx_eq_bitrate fmt dur h2]
    unfold estFromBitrate
    rw [hd, ht]
    simp [hd0, ht0]
  · intro h1 h2 hcase
    rw [estimate_eq_approx fmt dur h1, approx_eq_bitrate fmt dur h2]
    unfold estFromBitrate
    rcases hcase with hd | hd | hb | hb
    · rw [hd]
    · rw [hd]
      cases hb : estBitrate fmt with
      | none => rfl
      | some t => simp
    · rw [hb]
      cases dur with
      | none => rfl
      | some d => rfl
    · rw [hb]
      cases dur with
      | none => rfl
      | some d => simp
  · intro g hg
    unfold estimate_size_bytes
    rw [hg]
    have h5 : (0 : ℚ) < 5000000 := by norm_num
    have hq : qtrunc 5000000 = 5000000 := rfl
    simp [h5, hq]
  · simp [estimate_size_bytes, estFromApprox, estFromBitrate, estBitrate, estVbrAbr, qtrunc]
    norm_num

theorem estimate_size_bytes_spec_witness :
    estimate_size_bytes { tbr := some 1000 } (some 60) = (some 7500000, true) :=
  (estimate_size_bytes_spec { tbr := some 1000 } (some 60)).2.2.2.2.2

/-- C9: `_human_mb` renders "?" for an absent or non-positive byte count, and
otherwise the byte count divided by 1024 * 1024 with one decimal digit (the
value Python prints, ties to even) suffixed " Mo", prefixed "~" exactly when
the approximate flag is set; with the two concrete examples of the spec. -/
theorem human_mb_spec (n : ℤ) (h : 0 < n) :
    (∀ a, human_mb none a = "?") ∧
    (∀ m : ℤ, ∀ a, m ≤ 0 → human_mb (some m) a = "?") ∧
    human_mb (some n) false =
      toString (one_decimal n.toNat / 10) ++ "." ++ toString (one_decimal n.toNat % 10)
        ++ " Mo" ∧
    human_mb (some n) true = "~" ++ human_mb (some n) false ∧
    human_mb (some 1048576) false = "1.0 Mo" ∧
    human_mb (some 1048576) true = "~1.0 Mo" := by
  have hn : ¬ n ≤ 0 := not_le.mpr h
  refine ⟨fun a => rfl, ?_, ?_, ?_, by decide, by decide⟩
  · intro m a hm
    simp [human_mb, hm]
  · simp [human_mb, hn]
  · simp [human_mb, hn]

theorem human_mb_spec_witness :
    0 < (1048576 : ℤ) ∧
      (human_mb (some 1048576) false = "1.0 Mo" ∧ human_mb (some 1048576) true = "~1.0 Mo") :=
  ⟨by norm_num, (human_mb_spec 1048576 (by norm_num)).2.2.2.2⟩

theorem emit_progress_value_spec_witness :
    0 ≤ emit_progress_value (-5) ∧ emit_progress_value (-5) ≤ 100 ∧
    ((-5 : ℤ) < 0 → emit_progress_value (-5) = 0) ∧
    (100 < (-5 : ℤ) → emit_progress_value (-5) = 100) ∧
    (0 ≤ (-5 : ℤ) → (-5 : ℤ) ≤ 100 → emit_progress_value (-5) = -5) :=
  emit_progress_value_spec (-5)

/-- Outcome of one `ydl.download([url])` call inside
`YTDLPDownloadWorker.run`: either it returns (with the output path the
progress hook recorded on its "finished" event, when any), or it raises with
a message.  For the audio step, a missing FFmpeg post-processor raises just
like a fetch error does; the code cannot tell the two apart. -/
inductive StepOutcome where
  | ok (path : Option String)
  | err (msg : String)

deriving instance DecidableEq for StepOutcome

/-- The environment of one `YTDLPDownloadWorker.run` invocation: what each of
the two sequential `yt_dlp` calls would do. -/
structure DlEnv where
  videoStep : StepOutcome
  audioStep : StepOutcome

deriving instance DecidableEq for DlEnv

/-- What `YTDLPDownloadWorker.run` reports: the arguments of the terminal
`finished` signal plus the status texts emitted along the way, in order. -/
structure RunResult where
  success : Bool
  videoPath : Option String
  audioPath : Option String
  errorMessage : Option String
  statuses : List String

deriving instance DecidableEq for RunResult

/-- `YTDLPDownloadWorker.run` (lines 140-208 of `app.py`): the video step runs
under the outer `try`, so its exception sets `success = False` and the error
text and skips the audio step; the audio step runs under the inner `try`,
whose bare `except` reports "FFmpeg introuvable : MP3 non généré.", clears the
audio path and leaves `success = True`; the outer `else` emits "Terminé". -/
def worker_run (env : DlEnv) : RunResult :=
  match env.videoStep with
  | .err m =>
      { success := false
        videoPath := none
        audioPath := none
        errorMessage := some ("Erreur : " ++ m)
        statuses := ["Téléchargement vidéo (1/2)…", "Erreur : " ++ m] }
  | .ok vp =>
      match env.audioStep with
      | .err _ =>
          { success := true
            videoPath := vp
            audioPath := none
            errorMessage := none
            statuses := ["Téléchargement vidéo (1/2)…", "Extraction audio (2/2)…",
                         "FFmpeg introuvable : MP3 non généré.", "Terminé"] }
      | .ok ap =>
          { success := true
            videoPath := vp
            audioPath := ap
            errorMessage := none
            statuses := ["Téléchargement vidéo (1/2)…", "Extraction audio (2/2)…", "Terminé"] }

/-- C4 counterexample: a run whose video step succeeds and whose audio step
raises an outright fetch error still terminates with `success = true` and no
error payload — the bare `except` around the audio step swallows every audio
exception — although the claim requires a failure outcome carrying the error
text for an audio-step fetch error. -/
theorem worker_run_audio_error_cex :
    (worker_run ⟨StepOutcome.ok none, StepOutcome.err "network unreachable"⟩).success = true ∧
    (worker_run ⟨StepOutcome.ok none, StepOutcome.err "network unreachable"⟩).errorMessage
      = none := by
  constructor
  · rfl
  · rfl

theorem status_ne_err (m : String) :
    ("Extraction audio (2/2)…" : String) ≠ "Erreur : " ++ m := by
  intro hc
  have hd := congrArg String.data hc
  rw [String.data_append] at hd
  have h1 : "Extraction audio (2/2)…".data = 'E' :: 'x' :: "traction audio (2/2)…".data := rfl
  have h2 : "Erreur : ".data = 'E' :: 'r' :: "reur : ".data := rfl
  rw [h1, h2] at hd
  simp at hd

/-- C4 (amended): a fetch error in the video step aborts the task — the audio
step is never entered — and the terminal outcome is a failure carrying the
underlying error text; an error raised by the audio step is swallowed, and the
run reports failure exactly when the video step raised. -/
theorem worker_run_video_error_spec (env : DlEnv) :
    ((worker_run env).success = false ↔ ∃ m, env.videoStep = StepOutcome.err m) ∧
    (∀ m, env.videoStep = StepOutcome.err m →
        (worker_run env).errorMessage = some ("Erreur : " ++ m) ∧
        "Extraction audio (2/2)…" ∉ (worker_run env).statuses) := by
  constructor
  · constructor
    · intro hf
      cases hv : env.videoStep with
      | ok p =>
          exfalso
          cases ha : env.audioStep with
          | ok q => simp [worker_run, hv, ha] at hf
          | err m => simp [worker_run, hv, ha] at hf
      | err m => exact ⟨m, rfl⟩
    · rintro ⟨m, hm⟩
      simp [worker_run, hm]
  · intro m hm
    refine ⟨by simp [worker_run, hm], ?_⟩
    simp only [worker_run, hm]
    intro hmem
    simp only [List.mem_cons, List.not_mem_nil, or_false] at hmem
    rcases hmem with hc | hc
    · exact absurd hc (by decide)
    · exact status_ne_err m hc

theorem worker_run_video_error_spec_witness :
    ((worker_run ⟨StepOutcome.err "boom", StepOutcome.ok none⟩).success = false ↔
        ∃ m, (⟨StepOutcome.err "boom", StepOutcome.ok none⟩ : DlEnv).videoStep
          = StepOutcome.err m) ∧
    (∀ m, (⟨StepOutcome.err "boom", StepOutcome.ok none⟩ : DlEnv).videoStep
          = StepOutcome.err m →
        (worker_run ⟨StepOutcome.err "boom", StepOutcome.ok none⟩).errorMessage
          = some ("Erreur : " ++ m) ∧
        "Extraction audio (2/2)…"
          ∉ (worker_run ⟨StepOutcome.err "boom", StepOutcome.ok none⟩).statuses) :=
  worker_run_video_error_spec ⟨StepOutcome.err "boom", StepOutcome.ok none⟩

/-- C5: when the video step completes and the audio step raises (as a missing
FFmpeg post-processor does), the audio step is reported as skipped via the
status text, no audio path is produced, and the run still terminates
successfully. -/
theorem worker_run_audio_skip_spec (env : DlEnv) (p : Option String) (m : String)
    (hv : env.videoStep = StepOutcome.ok p) (ha : env.audioStep = StepOutcome.err m) :
    (worker_run env).success = true ∧
    (worker_run env).audioPath = none ∧
    (worker_run env).errorMessage = none ∧
    "FFmpeg introuvable : MP3 non généré." ∈ (worker_run env).statuses := by
  simp [worker_run, hv, ha]

theorem worker_run_audio_skip_spec_witness :
    (worker_run ⟨StepOutcome.ok (some "v.mp4"), StepOutcome.err "no ffmpeg"⟩).success = true ∧
    (worker_run ⟨StepOutcome.ok (some "v.mp4"), StepOutcome.err "no ffmpeg"⟩).audioPath
      = none ∧
    (worker_run ⟨StepOutcome.ok (some "v.mp4"), StepOutcome.err "no ffmpeg"⟩).errorMessage
      = none ∧
    "FFmpeg introuvable : MP3 non généré."
      ∈ (worker_run ⟨StepOutcome.ok (some "v.mp4"), StepOutcome.err "no ffmpeg"⟩).statuses :=
  worker_run_audio_skip_spec ⟨StepOutcome.ok (some "v.mp4"), StepOutcome.err "no ffmpeg"⟩
    (some "v.mp4") "no ffmpeg" rfl rfl

/-- The metadata payload delivered by the probe worker's `info_ready` signal:
the fields `_populate_formats` reads. -/
structure ProbeInfo where
  duration : Option ℚ := none
  formats : List Fmt := []

deriving instance DecidableEq for ProbeInfo

/-- The session-relevant state of a `YouTubeTab`: the URL line edit's text,
the fields set in `__init__`, and the enabled state of the two buttons.
Display-only widget state (progress bar value, duration label, table cell
texts) is not modelled; the table's rows mirror `formatsData` in order while
selection matters (sorting is disabled during the rebuild and auto-pick).
`probeRunning`/`downloadRunning` model "the worker attribute holds a running
worker", and `infoDelivered` records that the live probe worker has already
emitted its at-most-one `info_ready` signal. -/
structure SessionState where
  urlInput : String
  currentUrl : String
  selectedItag : Option String
  selectedRow : Option ℕ
  formatsData : List Fmt
  probeRunning : Bool
  infoDelivered : Bool
  downloadRunning : Bool
  analyzeEnabled : Bool
  downloadEnabled : Bool
  statusText : String

deriving instance DecidableEq for SessionState

/-- `YouTubeTab.__init__` plus `_setup_ui`. -/
def initState : SessionState :=
  { urlInput := ""
    currentUrl := ""
    selectedItag := none
    selectedRow := none
    formatsData := []
    probeRunning := false
    infoDelivered := false
    downloadRunning := false
    analyzeEnabled := true
    downloadEnabled := false
    statusText := "Prêt." }

/-- `YouTubeTab.append_log`: updates the status label. -/
def append_log (m : String) (s : SessionState) : SessionState :=
  { s with statusText := m }

/-- Truthiness of `self.selected_itag` (`None` and `""` are falsy). -/
def itagTruthy : Option String → Bool
  | none => false
  | some t => !(t == "")

/-- `YouTubeTab._update_download_button_state`. -/
def update_download_button_state (s : SessionState) : SessionState :=
  { s with downloadEnabled := itagTruthy s.selectedItag && !s.downloadRunning }

/-- The body of `YouTubeTab._select_row` once the row index has been
validated: require a truthy `format_id`, then record the selection. -/
def select_fmt (row : ℕ) (fmt : Fmt) (s : SessionState) : SessionState :=
  if fmt.format_id == "" then append_log "Format invalide sélectionné." s
  else
    update_download_button_state
      { s with
          selectedItag := some fmt.format_id
          selectedRow := some row
          statusText := "Format sélectionné : itag " ++ fmt.format_id ++ "." }

/-- `YouTubeTab._select_row` (check-mark redraw omitted): validates the row
index against `formats_data`, then hands the row to `select_fmt`. -/
def select_row (row : ℕ) (s : SessionState) : SessionState :=
  match s.formatsData.get? row with
  | none => s
  | some fmt => select_fmt row fmt s

/-- `YouTubeTab._auto_pick_row` as a state transformer: select the auto-picked
row, if any. -/
def auto_pick_and_select (s : SessionState) : SessionState :=
  match auto_pick_row s.formatsData with
  | some row => select_row row s
  | none => s

/-- `YouTubeTab._populate_formats` (duration label and table cell construction
omitted): store the filtered rows, then either report an empty result or
invite a selection and auto-pick. -/
def populate_formats (info : ProbeInfo) (s : SessionState) : SessionState :=
  if (filter_combined info.formats).isEmpty then
    append_log "Aucun format MP4 progressif trouvé."
      { s with formatsData := filter_combined info.formats }
  else
    auto_pick_and_select
      (append_log "Double-cliquez sur un format pour le sélectionner."
        { s with formatsData := filter_combined info.formats })

/-- `YouTubeTab._reset_selection` (check-mark clearing omitted). -/
def reset_selection (s : SessionState) : SessionState :=
  update_download_button_state { s with selectedItag := none, selectedRow := none }

/-- `YouTubeTab._on_analyze_clicked`: guard on a non-empty stripped URL, then
clear the selection, the format list and the prior probe payload, record the
URL and start the probe worker. -/
def on_analyze_clicked (s : SessionState) : SessionState :=
  if pyStrip s.urlInput == "" then append_log "URL manquante." s
  else
    { append_log "Lancement de l\x27analyse…" (reset_selection s) with
        analyzeEnabled := false
        downloadEnabled := false
        formatsData := []
        currentUrl := pyStrip s.urlInput
        probeRunning := true
        infoDelivered := false }

/-- `YouTubeTab._on_probe_finished`. -/
def on_probe_finished (s : SessionState) : SessionState :=
  { s with analyzeEnabled := true, probeRunning := false }

/-- `YouTubeTab._on_download_clicked`: guards, then start the download
worker. -/
def on_download_clicked (s : SessionState) : SessionState :=
  if s.currentUrl == "" || !(itagTruthy s.selectedItag) then
    append_log "Sélectionnez un format avant de télécharger." s
  else if s.downloadRunning then append_log "Téléchargement déjà en cours." s
  else
    { append_log "Préparation du téléchargement…" { s with downloadEnabled := false } with
        downloadRunning := true }

/-- `YouTubeTab._on_download_finished` (table-cell size rewrite and progress
bar omitted). -/
def on_download_finished (ok : Bool) (err : Option String) (s : SessionState) : SessionState :=
  let s1 :=
    if ok then s
    else
      match err with
      | some e => append_log e s
      | none => append_log "Téléchargement échoué." s
  update_download_button_state { s1 with downloadRunning := false }

/-- The events a `YouTubeTab` reacts to: user input and the worker signals. -/
inductive Event where
  | setUrl (u : String)
  | analyzeClicked
  | probeInfo (info : ProbeInfo)
  | probeLog (m : String)
  | probeFinished
  | rowDoubleClicked (row : ℕ)
  | downloadClicked
  | downloadStatus (m : String)
  | downloadFinished (ok : Bool) (err : Option String)

/-- One event dispatch.  A click on a disabled button does not fire its
handler (Qt emits no `clicked` signal then); probe signals only arrive from a
live probe worker, which emits `info_ready` at most once per run; download
signals only arrive while a download worker runs. -/
def step (e : Event) (s : SessionState) : SessionState :=
  match e with
  | .setUrl u => { s with urlInput := u }
  | .analyzeClicked => if s.analyzeEnabled then on_analyze_clicked s else s
  | .probeInfo info =>
      if s.probeRunning && !s.infoDelivered then
        populate_formats info { s with infoDelivered := true }
      else s
  | .probeLog m => if s.probeRunning then append_log m s else s
  | .probeFinished => if s.probeRunning then on_probe_finished s else s
  | .rowDoubleClicked row => select_row row s
  | .downloadClicked => if s.downloadEnabled then on_download_clicked s else s
  | .downloadStatus m => if s.downloadRunning then append_log m s else s
  | .downloadFinished ok err => if s.downloadRunning then on_download_finished ok err s else s

/-- The session states reachable from the initial state by event dispatch. -/
inductive Reachable : SessionState → Prop where
  | init : Reachable initState
  | next (e : Event) (s : SessionState) : Reachable s → Reachable (step e s)

/-- The session invariant: while a probe runs the analyze button is disabled;
a recorded selection is a truthy `format_id` of a held format row; and before
a running probe has delivered its payload, the format list is empty and no
selection exists. -/
def Inv (s : SessionState) : Prop :=
  (s.probeRunning = true → s.analyzeEnabled = false) ∧
  (∀ id, s.selectedItag = some id → id ≠ "" ∧ ∃ f ∈ s.formatsData, f.format_id = id) ∧
  (s.probeRunning = true → s.infoDelivered = false →
    s.formatsData = [] ∧ s.selectedItag = none)

theorem select_fmt_fields (row : ℕ) (fmt : Fmt) (s : SessionState) :
    (select_fmt row fmt s).formatsData = s.formatsData ∧
    (select_fmt row fmt s).probeRunning = s.probeRunning ∧
    (select_fmt row fmt s).analyzeEnabled = s.analyzeEnabled ∧
    (select_fmt row fmt s).infoDelivered = s.infoDelivered := by
  unfold select_fmt
  cases fmt.format_id == "" with
  | true => exact ⟨rfl, rfl, rfl, rfl⟩
  | false => exact ⟨rfl, rfl, rfl, rfl⟩

theorem select_fmt_selected (row : ℕ) (fmt : Fmt) (s : SessionState) :
    (select_fmt row fmt s).selectedItag = s.selectedItag ∨
    (fmt.format_id ≠ "" ∧ (select_fmt row fmt s).selectedItag = some fmt.format_id) := by
  unfold select_fmt
  cases hid : fmt.format_id == "" with
  | true => exact Or.inl rfl
  | false =>
      refine Or.inr ⟨?_, rfl⟩
      intro hc
      rw [hc] at hid
      exact Bool.noConfusion hid

theorem select_row_fields (row : ℕ) (s : SessionState) :
    (select_row row s).formatsData = s.formatsData ∧
    (select_row row s).probeRunning = s.probeRunning ∧
    (select_row row s).analyzeEnabled = s.analyzeEnabled ∧
    (select_row row s).infoDelivered = s.infoDelivered := by
  unfold select_row
  cases s.formatsData.get? row with
  | none => exact ⟨rfl, rfl, rfl, rfl⟩
  | some fmt => exact select_fmt_fields row fmt s

theorem select_row_selected (row : ℕ) (s : SessionState) :
    (select_row row s).selectedItag = s.selectedItag ∨
    ∃ f, s.formatsData.get? row = some f ∧ f.format_id ≠ "" ∧
      (select_row row s).selectedItag = some f.format_id := by
  unfold select_row
  cases s.formatsData.get? row with
  | none => exact Or.inl rfl
  | some fmt =>
      rcases select_fmt_selected row fmt s with hsel | ⟨hne, hsel⟩
      · exact Or.inl hsel
      · exact Or.inr ⟨fmt, rfl, hne, hsel⟩

theorem select_row_of_nil (row : ℕ) (s : SessionState) (h : s.formatsData = []) :
    select_row row s = s := by
  unfold select_row
  rw [h]
  rfl

theorem auto_pick_and_select_fields (s : SessionState) :
    (auto_pick_and_select s).formatsData = s.formatsData ∧
    (auto_pick_and_select s).probeRunning = s.probeRunning ∧
    (auto_pick_and_select s).analyzeEnabled = s.analyzeEnabled ∧
    (auto_pick_and_select s).infoDelivered = s.infoDelivered := by
  unfold auto_pick_and_select
  cases auto_pick_row s.formatsData with
  | none => exact ⟨rfl, rfl, rfl, rfl⟩
  | some row => exact select_row_fields row s

theorem auto_pick_and_select_selected (s : SessionState) :
    (auto_pick_and_select s).selectedItag = s.selectedItag ∨
    ∃ f ∈ s.formatsData, f.format_id ≠ "" ∧
      (auto_pick_and_select s).selectedItag = some f.format_id := by
  unfold auto_pick_and_select
  cases auto_pick_row s.formatsData with
  | none => exact Or.inl rfl
  | some row =>
      rcases select_row_selected row s with hold | ⟨f, hget, hfid, hsel⟩
      · exact Or.inl hold
      · exact Or.inr ⟨f, List.get?_mem hget, hfid, hsel⟩

theorem populate_fields (info : ProbeInfo) (s : SessionState) :
    (populate_formats info s).probeRunning = s.probeRunning ∧
    (populate_formats info s).analyzeEnabled = s.analyzeEnabled ∧
    (populate_formats info s).infoDelivered = s.infoDelivered ∧
    (populate_formats info s).formatsData = filter_combined info.formats := by
  unfold populate_formats
  cases (filter_combined info.formats).isEmpty with
  | true => exact ⟨rfl, rfl, rfl, rfl⟩
  | false =>
      have h := auto_pick_and_select_fields
        (append_log "Double-cliquez sur un format pour le sélectionner."
          { s with formatsData := filter_combined info.formats })
      exact ⟨h.2.1, h.2.2.1, h.2.2.2, h.1⟩

theorem populate_selected (info : ProbeInfo) (s : SessionState) :
    (populate_formats info s).selectedItag = s.selectedItag ∨
    ∃ f ∈ filter_combined info.formats, f.format_id ≠ "" ∧
      (populate_formats info s).selectedItag = some f.format_id := by
  unfold populate_formats
  cases (filter_combined info.formats).isEmpty with
  | true => exact Or.inl rfl
  | false =>
      rcases auto_pick_and_select_selected
          (append_log "Double-cliquez sur un format pour le sélectionner."
            { s with formatsData := filter_combined info.formats }) with
        hold | ⟨f, hf, hfid, hsel⟩
      · exact Or.inl hold
      · exact Or.inr ⟨f, hf, hfid, hsel⟩

theorem on_download_clicked_fields (s : SessionState) :
    (on_download_clicked s).formatsData = s.formatsData ∧
    (on_download_clicked s).selectedItag = s.selectedItag ∧
    (on_download_clicked s).probeRunning = s.probeRunning ∧
    (on_download_clicked s).analyzeEnabled = s.analyzeEnabled ∧
    (on_download_clicked s).infoDelivered = s.infoDelivered := by
  unfold on_download_clicked
  cases h1 : (s.currentUrl == "" || !(itagTruthy s.selectedItag)) with
  | true => simp [append_log]
  | false =>
      cases h2 : s.downloadRunning with
      | true => simp [h1, h2, append_log]
      | false => simp [h1, h2, append_log]

theorem on_download_finished_fields (ok : Bool) (err : Option String) (s : SessionState) :
    (on_download_finished ok err s).formatsData = s.formatsData ∧
    (on_download_finished ok err s).selectedItag = s.selectedItag ∧
    (on_download_finished ok err s).probeRunning = s.probeRunning ∧
    (on_download_finished ok err s).analyzeEnabled = s.analyzeEnabled ∧
    (on_download_finished ok err s).infoDelivered = s.infoDelivered := by
  unfold on_download_finished
  cases ok with
  | true => simp [append_log, update_download_button_state]
  | false =>
      cases err with
      | none => simp [append_log, update_download_button_state]
      | some e => simp [append_log, update_download_button_state]

theorem inv_init : Inv initState := by
  refine ⟨by simp [initState], ?_, by simp [initState]⟩
  intro id hid
  simp [initState] at hid

theorem inv_step (e : Event) (s : SessionState) (h : Inv s) : Inv (step e s) := by
  obtain ⟨h1, h2, h3⟩ := h
  cases e with
  | setUrl u =>
      exact ⟨h1, h2, h3⟩
  | analyzeClicked =>
      simp only [step]
      cases s.analyzeEnabled with
      | false => exact ⟨h1, h2, h3⟩
      | true =>
          show Inv (on_analyze_clicked s)
          unfold on_analyze_clicked
          cases pyStrip s.urlInput == "" with
          | true => exact ⟨h1, h2, h3⟩
          | false =>
              exact ⟨fun _ => rfl, fun id hid => Option.noConfusion hid,
                fun _ _ => ⟨rfl, rfl⟩⟩
  | probeInfo info =>
      simp only [step]
      cases hg : s.probeRunning && !s.infoDelivered with
      | false => exact ⟨h1, h2, h3⟩
      | true =>
          show Inv (populate_formats info { s with infoDelivered := true })
          have hb := hg
          simp only [Bool.and_eq_true, Bool.not_eq_true'] at hb
          obtain ⟨hrun, hdel⟩ := hb
          have hsel0 : s.selectedItag = none := (h3 hrun hdel).2
          obtain ⟨hf1, hf2, hf3, hf4⟩ := populate_fields info { s with infoDelivered := true }
          refine ⟨?_, ?_, ?_⟩
          · intro _
            rw [hf2]
            exact h1 hrun
          · intro id hid
            rcases populate_selected info { s with infoDelivered := true } with hold | hnew
            · rw [hold] at hid
              have hid' : s.selectedItag = some id := hid
              rw [hsel0] at hid'
              cases hid'
            · obtain ⟨f, hfmem, hfid, hfsel⟩ := hnew
              rw [hfsel, Option.some.injEq] at hid
              subst hid
              exact ⟨hfid, f, by rw [hf4]; exact hfmem, rfl⟩
          · intro _ hd
            rw [hf3] at hd
            exact Bool.noConfusion hd
  | probeLog m =>
      simp only [step]
      cases s.probeRunning with
      | false => exact ⟨h1, h2, h3⟩
      | true => exact ⟨h1, h2, h3⟩
  | probeFinished =>
      simp only [step]
      cases s.probeRunning with
      | false => exact ⟨h1, h2, h3⟩
      | true =>
          exact ⟨fun hc => Bool.noConfusion hc, h2, fun hc _ => Bool.noConfusion hc⟩
  | rowDoubleClicked row =>
      simp only [step]
      obtain ⟨hf1, hf2, hf3, hf4⟩ := select_row_fields row s
      refine ⟨?_, ?_, ?_⟩
      · intro hc
        rw [hf2] at hc
        rw [hf3]
        exact h1 hc
      · intro id hid
        rcases select_row_selected row s with hold | hnew
        · rw [hold] at hid
          obtain ⟨hne, f, hfmem, hfid⟩ := h2 id hid
          exact ⟨hne, f, by rw [hf1]; exact hfmem, hfid⟩
        · obtain ⟨f, hfget, hfid, hfsel⟩ := hnew
          rw [hfsel, Option.some.injEq] at hid
          subst hid
          exact ⟨hfid, f, by rw [hf1]; exact List.get?_mem hfget, rfl⟩
      · intro hrun hdel
        rw [hf2] at hrun
        rw [hf4] at hdel
        obtain ⟨hnil, hsel⟩ := h3 hrun hdel
        rw [select_row_of_nil row s hnil]
        exact ⟨hnil, hsel⟩
  | downloadClicked =>
      simp only [step]
      cases s.downloadEnabled with
      | false => exact ⟨h1, h2, h3⟩
      | true =>
          show Inv (on_download_clicked s)
          obtain ⟨hf1, hf2, hf3, hf4, hf5⟩ := on_download_clicked_fields s
          refine ⟨?_, ?_, ?_⟩
          · intro hc
            rw [hf3] at hc
            rw [hf4]
            exact h1 hc
          · intro id hid
            rw [hf2] at hid
            obtain ⟨hne, f, hfmem, hfid⟩ := h2 id hid
            exact ⟨hne, f, by rw [hf1]; exact hfmem, hfid⟩
          · intro hrun hdel
            rw [hf3] at hrun
            rw [hf5] at hdel
            obtain ⟨hnil, hsel⟩ := h3 hrun hdel
            rw [hf1, hf2]
            exact ⟨hnil, hsel⟩
  | downloadStatus m =>
      simp only [step]
      cases s.downloadRunning with
      | false => exact ⟨h1, h2, h3⟩
      | true => exact ⟨h1, h2, h3⟩
  | downloadFinished ok err =>
      simp only [step]
      cases s.downloadRunning with
      | false => exact ⟨h1, h2, h3⟩
      | true =>
          show Inv (on_download_finished ok err s)
          obtain ⟨hf1, hf2, hf3, hf4, hf5⟩ := on_download_finished_fields ok err s
          refine ⟨?_, ?_, ?_⟩
          · intro hc
            rw [hf3] at hc
            rw [hf4]
            exact h1 hc
          · intro id hid
            rw [hf2] at hid
            obtain ⟨hne, f, hfmem, hfid⟩ := h2 id hid
            exact ⟨hne, f, by rw [hf1]; exact hfmem, hfid⟩
          · intro hrun hdel
            rw [hf3] at hrun
            rw [hf5] at hdel
            obtain ⟨hnil, hsel⟩ := h3 hrun hdel
            rw [hf1, hf2]
            exact ⟨hnil, hsel⟩

theorem reachable_inv (s : SessionState) (h : Reachable s) : Inv s := by
  induction h with
  | init => exact inv_init
  | next e s' _ ih => exact inv_step e s' ih

/-- C6: in every reachable session state in which a probe is running, the
analyze click is a no-op — the analyze button is disabled for the whole probe
lifetime, so no second probe can start and the in-flight probe's state is
untouched. -/
theorem probe_guard_spec (s : SessionState) (hr : Reachable s)
    (hp : s.probeRunning = true) :
    step Event.analyzeClicked s = s := by
  have hdis : s.analyzeEnabled = false := (reachable_inv s hr).1 hp
  simp only [step]
  rw [hdis]
  rfl

/-- A reachable state with a probe in flight: analyze clicked on a non-empty
URL. -/
def wProbeState : SessionState :=
  step Event.analyzeClicked (step (Event.setUrl "u") initState)

theorem probe_guard_spec_witness :
    wProbeState.probeRunning = true ∧
      step Event.analyzeClicked wProbeState = wProbeState := by
  refine ⟨by decide, probe_guard_spec wProbeState ?_ (by decide)⟩
  exact Reachable.next Event.analyzeClicked (step (Event.setUrl "u") initState)
    (Reachable.next (Event.setUrl "u") initState Reachable.init)

/-- C7: when no format is selected or the recorded URL is empty, the download
click handler only emits the guard status message; no download task starts and
the URL, format list and selection are unchanged. -/
theorem download_guard_spec (s : SessionState)
    (h : s.currentUrl = "" ∨ s.selectedItag = none) :
    (on_download_clicked s).statusText = "Sélectionnez un format avant de télécharger." ∧
    (on_download_clicked s).downloadRunning = s.downloadRunning ∧
    (on_download_clicked s).currentUrl = s.currentUrl ∧
    (on_download_clicked s).formatsData = s.formatsData ∧
    (on_download_clicked s).selectedItag = s.selectedItag := by
  have hcond : (s.currentUrl == "" || !(itagTruthy s.selectedItag)) = true := by
    rcases h with h | h
    · rw [h]
      rfl
    · rw [h]
      simp [itagTruthy]
  unfold on_download_clicked
  rw [hcond]
  exact ⟨rfl, rfl, rfl, rfl, rfl⟩

theorem download_guard_spec_witness :
    (initState.currentUrl = "" ∨ initState.selectedItag = none) ∧
    ((on_download_clicked initState).statusText
        = "Sélectionnez un format avant de télécharger." ∧
      (on_download_clicked initState).downloadRunning = initState.downloadRunning ∧
      (on_download_clicked initState).currentUrl = initState.currentUrl ∧
      (on_download_clicked initState).formatsData = initState.formatsData ∧
      (on_download_clicked initState).selectedItag = initState.selectedItag) :=
  ⟨Or.inl rfl, download_guard_spec initState (Or.inl rfl)⟩

/-- C8: in every reachable session state, a recorded selection is the
`format_id` of some entry of the held (filtered) format list, and clicking
analyze with a non-empty URL — starting a new probe — clears any prior
selection. -/
theorem selection_consistency_spec (s : SessionState) (hr : Reachable s) :
    (∀ id, s.selectedItag = some id → ∃ f ∈ s.formatsData, f.format_id = id) ∧
    (s.analyzeEnabled = true → pyStrip s.urlInput ≠ "" →
      (step Event.analyzeClicked s).selectedItag = none) := by
  refine ⟨?_, ?_⟩
  · intro id hid
    exact ((reachable_inv s hr).2.1 id hid).2
  · intro hen hurl
    have hbeq : (pyStrip s.urlInput == "") = false := beq_eq_false_iff_ne.mpr hurl
    simp only [step]
    rw [hen]
    show (on_analyze_clicked s).selectedItag = none
    unfold on_analyze_clicked
    rw [hbeq]
    rfl

/-- A probe payload holding one selectable combined format. -/
def wInfo : ProbeInfo :=
  { formats := [{ format_id := "22", ext := "mp4", vcodec := some "avc1",
                  acodec := some "mp4a", height := some 720 }] }

/-- A reachable state in which the probe delivered `wInfo` and auto-pick
selected its row. -/
def wSelState : SessionState :=
  step (Event.probeInfo wInfo) (step Event.analyzeClicked (step (Event.setUrl "u") initState))

theorem selection_consistency_spec_witness :
    wSelState.selectedItag = some "22" ∧
      (∃ f ∈ wSelState.formatsData, f.format_id = "22") := by
  have hr : Reachable wSelState :=
    Reachable.next (Event.probeInfo wInfo) _
      (Reachable.next Event.analyzeClicked _
        (Reachable.next (Event.setUrl "u") _ Reachable.init))
  exact ⟨by decide, (selection_consistency_spec wSelState hr).1 "22" (by decide)⟩

end App
